import Mathlib

/-!
Verification of the sharefeed session/cache coordinator (UI stores, secret
codec, partition registry) against its natural-language specification.

Strings are modelled as `List Char` (`Str`).  JavaScript string operations
used by the source (`trim`, `split(/\s+/)`, `split(sep)`, `join(sep)`,
`replace(pat, '')`, truthiness of strings) are given executable models whose
JS edge cases (leading/trailing empty tokens of `split`, `''` being falsy,
first-occurrence-only `replace`) are reproduced faithfully.
-/

/-- Strings of the modelled JavaScript code. -/
abbrev Str := List Char

/-- Shorthand turning a Lean string literal into the `Str` model. -/
def str (s : String) : Str := s.toList

/-- Whitespace test matching the characters of the JS regexp class `\s`
(restricted to the ASCII range, which is the only range the repository's
data can contain). -/
def isWs (c : Char) : Bool :=
  c = ' ' || c = '\t' || c = '\n' || c = '\r' || c = '\x0b' || c = '\x0c'

/-- Model of `String.prototype.trim`: drop whitespace from both ends. -/
def trim (s : Str) : Str :=
  ((s.dropWhile isWs).reverse.dropWhile isWs).reverse

/-- Model of `s.split(/\s+/)`: split at maximal whitespace runs.  As in JS,
the result has a leading (resp. trailing) empty token when the string starts
(resp. ends) with whitespace, and `''.split(/\s+/) = ['']`. -/
def splitWs : Str → List Str
  | [] => [[]]
  | [c] => if isWs c then [[], []] else [[c]]
  | c :: c2 :: cs2 =>
    if isWs c then
      if isWs c2 then splitWs (c2 :: cs2)
      else [] :: splitWs (c2 :: cs2)
    else
      match splitWs (c2 :: cs2) with
      | [] => [[c]]
      | t :: ts => (c :: t) :: ts

/-- Model of `s.split(sep)` for a single-character separator, with the JS
semantics (`''.split(sep) = ['']`, adjacent separators produce empty
tokens). -/
def splitChar (sep : Char) : Str → List Str
  | [] => [[]]
  | c :: cs =>
    if c = sep then [] :: splitChar sep cs
    else
      match splitChar sep cs with
      | [] => [[c]]
      | t :: ts => (c :: t) :: ts

/-- Model of `parts.join(sep)` for a single-character separator. -/
def joinSep (sep : Char) : List Str → Str
  | [] => []
  | [w] => w
  | w :: w2 :: ws => w ++ sep :: joinSep sep (w2 :: ws)

/-- Does `pat` occur at the start of the string? (JS `startsWith`). -/
def startsWith : Str → Str → Bool
  | [], _ => true
  | _ :: _, [] => false
  | p :: ps, c :: cs => p = c && startsWith ps cs

/-- Model of `s.replace(pat, '')` for a plain-string pattern: remove the
leftmost occurrence of `pat`, if any. -/
def replaceFirst (pat : Str) : Str → Str
  | [] => []
  | c :: cs =>
    if startsWith pat (c :: cs) then (c :: cs).drop pat.length
    else c :: replaceFirst pat cs

/-! ## Secret codec (`src/ui/src/lib/secrets.ts`) -/

/-- The literal prefix `'sharefeed-'` used by the codec. -/
def seedMarker : Str := str "sharefeed-"

/-- `passphraseToNetworkSeed` from `secrets.ts`:
`` `sharefeed-${passphrase.trim().split(/\s+/).join('-')}` ``. -/
def passphraseToNetworkSeed (passphrase : Str) : Str :=
  seedMarker ++ joinSep '-' (splitWs (trim passphrase))

/-- `networkSeedToPassphrase` from `secrets.ts`:
`seed.replace('sharefeed-', '').split('-').join(' ')`. -/
def networkSeedToPassphrase (seed : Str) : Str :=
  joinSep ' ' (splitChar '-' (replaceFirst seedMarker seed))

/-- Result of `validatePassphrase`, one constructor per distinct
`{valid, error?}` value produced by the source. -/
inductive PassphraseCheck where
  | valid : PassphraseCheck
  | requiredError : PassphraseCheck
  | wordCountError (got : Nat) : PassphraseCheck
  | emptyWordError : PassphraseCheck
deriving DecidableEq, Repr

/-- `validatePassphrase` from `secrets.ts`: trim; reject empty; split on
whitespace; reject word counts other than 5; reject zero-length words. -/
def validatePassphrase (passphrase : Str) : PassphraseCheck :=
  let trimmed := trim passphrase
  if trimmed = [] then .requiredError
  else
    let words := splitWs trimmed
    if words.length ≠ 5 then .wordCountError words.length
    else if ¬ (words.all fun w => decide (0 < w.length)) then .emptyWordError
    else .valid

/-! ## Basic lemmas about the string model -/

theorem splitWs_ne_nil : ∀ s : Str, splitWs s ≠ []
  | [] => by simp [splitWs]
  | [c] => by by_cases hc : isWs c <;> simp [splitWs, hc]
  | c :: c2 :: cs2 => by
    have ih := splitWs_ne_nil (c2 :: cs2)
    by_cases hc : isWs c
    · by_cases hc2 : isWs c2
      · simpa [splitWs, hc, hc2] using ih
      · simp [splitWs, hc, hc2]
    · simp only [splitWs, hc, Bool.false_eq_true, if_false]
      cases h : splitWs (c2 :: cs2) <;> simp

theorem splitWs_cons_of_not_ws (c : Char) (cs : Str) (t : Str) (ts : List Str)
    (hc : isWs c = false) (h : splitWs cs = t :: ts) :
    splitWs (c :: cs) = (c :: t) :: ts := by
  cases cs with
  | nil =>
    have ht : t = [] ∧ ts = [] := by
      have : ([[]] : List Str) = t :: ts := by simpa [splitWs] using h
      exact ⟨(List.cons.injEq _ _ _ _ ▸ this.symm).1, (List.cons.injEq _ _ _ _ ▸ this.symm).2⟩
    obtain ⟨rfl, rfl⟩ := ht
    simp [splitWs, hc]
  | cons c2 cs2 =>
    simp [splitWs, hc, h]

theorem splitWs_append_word (w s : Str) (t : Str) (ts : List Str)
    (hw : ∀ c ∈ w, isWs c = false) (h : splitWs s = t :: ts) :
    splitWs (w ++ s) = (w ++ t) :: ts := by
  induction w with
  | nil => simpa using h
  | cons c w2 ih =>
    have hc : isWs c = false := hw c (List.mem_cons_self c w2)
    have hrec := ih (fun d hd => hw d (List.mem_cons_of_mem c hd))
    have := splitWs_cons_of_not_ws c (w2 ++ s) (w2 ++ t) ts hc hrec
    simpa using this

theorem splitWs_space_cons (c2 : Char) (rest : Str) (hc2 : isWs c2 = false) :
    splitWs (' ' :: c2 :: rest) = [] :: splitWs (c2 :: rest) := by
  have h1 : isWs ' ' = true := by decide
  simp only [splitWs, h1, hc2, if_true, Bool.false_eq_true, if_false]

theorem joinSep_cons (sep : Char) (w : Str) (ws : List Str) :
    ∃ z, joinSep sep (w :: ws) = w ++ z := by
  cases ws with
  | nil => exact ⟨[], by simp [joinSep]⟩
  | cons w2 ws2 => exact ⟨sep :: joinSep sep (w2 :: ws2), rfl⟩

theorem splitWs_joinSep (ws : List Str) (hne : ws ≠ [])
    (hw : ∀ w ∈ ws, w ≠ [] ∧ ∀ c ∈ w, isWs c = false) :
    splitWs (joinSep ' ' ws) = ws := by
  induction ws with
  | nil => exact absurd rfl hne
  | cons w ws2 ih =>
    cases ws2 with
    | nil =>
      have hw1 := hw w (List.mem_cons_self w [])
      have : splitWs (w ++ []) = (w ++ []) :: [] :=
        splitWs_append_word w [] [] [] hw1.2 rfl
      simpa [joinSep] using this
    | cons w2 ws3 =>
      have hw2 := hw w2 (List.mem_cons_of_mem w (List.mem_cons_self w2 ws3))
      obtain ⟨c2, w2t, hw2eq⟩ : ∃ c2 w2t, w2 = c2 :: w2t := by
        cases w2 with
        | nil => exact absurd rfl hw2.1
        | cons a b => exact ⟨a, b, rfl⟩
      have hc2 : isWs c2 = false := hw2.2 c2 (hw2eq ▸ List.mem_cons_self c2 w2t)
      obtain ⟨z, hz⟩ := joinSep_cons ' ' w2 ws3
      have hrest : splitWs (joinSep ' ' (w2 :: ws3)) = w2 :: ws3 :=
        ih (by simp) (fun u hu => hw u (List.mem_cons_of_mem w hu))
      have hsp : splitWs (' ' :: joinSep ' ' (w2 :: ws3)) =
          [] :: (w2 :: ws3) := by
        rw [hz, hw2eq, List.cons_append]
        rw [splitWs_space_cons c2 (w2t ++ z) hc2]
        have h2 : splitWs (c2 :: (w2t ++ z)) = w2 :: ws3 := by
          rw [← List.cons_append, ← hw2eq, ← hz]
          exact hrest
        rw [h2, hw2eq]
      have hw1 := hw w (List.mem_cons_self w (w2 :: ws3))
      have := splitWs_append_word w (' ' :: joinSep ' ' (w2 :: ws3))
        [] (w2 :: ws3) hw1.2 hsp
      simpa [joinSep] using this

theorem splitChar_cons_of_ne (sep c : Char) (cs : Str) (t : Str) (ts : List Str)
    (hc : c ≠ sep) (h : splitChar sep cs = t :: ts) :
    splitChar sep (c :: cs) = (c :: t) :: ts := by
  simp [splitChar, hc, h]

theorem splitChar_append_word (sep : Char) (w s : Str) (t : Str) (ts : List Str)
    (hw : ∀ c ∈ w, c ≠ sep) (h : splitChar sep s = t :: ts) :
    splitChar sep (w ++ s) = (w ++ t) :: ts := by
  induction w with
  | nil => simpa using h
  | cons c w2 ih =>
    have hc : c ≠ sep := hw c (List.mem_cons_self c w2)
    have hrec := ih (fun d hd => hw d (List.mem_cons_of_mem c hd))
    have := splitChar_cons_of_ne sep c (w2 ++ s) (w2 ++ t) ts hc hrec
    simpa using this

theorem splitChar_joinSep (sep : Char) (ws : List Str) (hne : ws ≠ [])
    (hw : ∀ w ∈ ws, ∀ c ∈ w, c ≠ sep) :
    splitChar sep (joinSep sep ws) = ws := by
  induction ws with
  | nil => exact absurd rfl hne
  | cons w ws2 ih =>
    cases ws2 with
    | nil =>
      have hw1 := hw w (List.mem_cons_self w [])
      have : splitChar sep (w ++ []) = (w ++ []) :: [] :=
        splitChar_append_word sep w [] [] [] hw1 rfl
      simpa [joinSep] using this
    | cons w2 ws3 =>
      have hrest : splitChar sep (joinSep sep (w2 :: ws3)) = w2 :: ws3 :=
        ih (by simp) (fun u hu => hw u (List.mem_cons_of_mem w hu))
      have hsp : splitChar sep (sep :: joinSep sep (w2 :: ws3)) =
          [] :: (w2 :: ws3) := by
        simp [splitChar, hrest]
      have hw1 := hw w (List.mem_cons_self w (w2 :: ws3))
      have := splitChar_append_word sep w (sep :: joinSep sep (w2 :: ws3))
        [] (w2 :: ws3) hw1 hsp
      simpa [joinSep] using this

theorem startsWith_append_self (l r : Str) : startsWith l (l ++ r) = true := by
  induction l with
  | nil => rfl
  | cons c cs ih => simp [startsWith, ih]

theorem replaceFirst_marker (pat rest : Str) (h : pat ≠ []) :
    replaceFirst pat (pat ++ rest) = rest := by
  obtain ⟨c, cs, rfl⟩ : ∃ c cs, pat = c :: cs := by
    cases pat with
    | nil => exact absurd rfl h
    | cons a b => exact ⟨a, b, rfl⟩
  show replaceFirst (c :: cs) (c :: (cs ++ rest)) = rest
  have hpre : startsWith (c :: cs) (c :: cs ++ rest) = true :=
    startsWith_append_self (c :: cs) rest
  simp only [replaceFirst, List.cons_append] at *
  rw [hpre]
  simp [List.drop_left]

theorem dropWhile_isWs_eq_self (s : Str) (h : ∀ c ∈ s.head?, isWs c = false) :
    s.dropWhile isWs = s := by
  cases s with
  | nil => rfl
  | cons c cs =>
    have hc : isWs c = false := h c (by simp)
    simp [List.dropWhile_cons, hc]

theorem trim_of_ends (s : Str) (h1 : ∀ c ∈ s.head?, isWs c = false)
    (h2 : ∀ c ∈ s.getLast?, isWs c = false) : trim s = s := by
  unfold trim
  rw [dropWhile_isWs_eq_self s h1]
  have hrev : ∀ c ∈ s.reverse.head?, isWs c = false := by
    intro c hc
    rw [List.head?_reverse] at hc
    exact h2 c hc
  rw [dropWhile_isWs_eq_self s.reverse hrev, List.reverse_reverse]

theorem mem_of_mem_head? {α : Type} (l : List α) (c : α) (h : c ∈ l.head?) :
    c ∈ l := by
  cases l with
  | nil => simp at h
  | cons a as =>
    simp only [List.head?_cons, Option.mem_def, Option.some.injEq] at h
    exact h ▸ List.mem_cons_self a as

theorem mem_of_mem_getLast? {α : Type} (l : List α) (c : α)
    (h : c ∈ l.getLast?) : c ∈ l := by
  rw [← List.head?_reverse] at h
  have := mem_of_mem_head? l.reverse c h
  exact List.mem_reverse.mp this

theorem getLast?_append_cons {α : Type} (l1 : List α) (c : α) (l2 : List α) :
    (l1 ++ c :: l2).getLast? = (c :: l2).getLast? := by
  induction l1 with
  | nil => rfl
  | cons a l1t ih =>
    rw [List.cons_append]
    cases h : l1t ++ c :: l2 with
    | nil => exact absurd h (by simp)
    | cons b bs => rw [List.getLast?_cons_cons, ← h, ih]

theorem joinSep_head_nonWs (ws : List Str)
    (hw : ∀ w ∈ ws, w ≠ [] ∧ ∀ c ∈ w, isWs c = false) :
    ∀ c ∈ (joinSep ' ' ws).head?, isWs c = false := by
  intro c hc
  cases ws with
  | nil => simp [joinSep] at hc
  | cons w ws2 =>
    have hw1 := hw w (List.mem_cons_self w ws2)
    obtain ⟨d, wt, rfl⟩ : ∃ d wt, w = d :: wt := by
      cases w with
      | nil => exact absurd rfl hw1.1
      | cons a b => exact ⟨a, b, rfl⟩
    obtain ⟨z, hz⟩ := joinSep_cons ' ' (d :: wt) ws2
    rw [hz] at hc
    simp only [List.cons_append, List.head?_cons, Option.mem_def,
      Option.some.injEq] at hc
    exact hc ▸ hw1.2 d (List.mem_cons_self d wt)

theorem joinSep_getLast_nonWs (ws : List Str)
    (hw : ∀ w ∈ ws, w ≠ [] ∧ ∀ c ∈ w, isWs c = false) :
    ∀ c ∈ (joinSep ' ' ws).getLast?, isWs c = false := by
  induction ws with
  | nil => intro c hc; simp [joinSep] at hc
  | cons w ws2 ih =>
    intro c hc
    cases ws2 with
    | nil =>
      have hw1 := hw w (List.mem_cons_self w [])
      simp only [joinSep] at hc
      exact hw1.2 c (mem_of_mem_getLast? w c hc)
    | cons w2 ws3 =>
      have hrec := ih (fun u hu => hw u (List.mem_cons_of_mem w hu))
      simp only [joinSep] at hc
      rw [getLast?_append_cons] at hc
      have hw2 := hw w2 (List.mem_cons_of_mem w (List.mem_cons_self w2 ws3))
      obtain ⟨d, wt, hw2eq⟩ : ∃ d wt, w2 = d :: wt := by
        cases w2 with
        | nil => exact absurd rfl hw2.1
        | cons a b => exact ⟨a, b, rfl⟩
      obtain ⟨z, hz⟩ := joinSep_cons ' ' w2 ws3
      rw [hz, hw2eq] at hc
      rw [List.cons_append, List.getLast?_cons_cons] at hc
      rw [← List.cons_append, ← hw2eq, ← hz] at hc
      exact hrec c hc

theorem joinSep_ne_nil (ws : List Str) (hne : ws ≠ [])
    (hw : ∀ w ∈ ws, w ≠ []) : joinSep ' ' ws ≠ [] := by
  cases ws with
  | nil => exact absurd rfl hne
  | cons w ws2 =>
    obtain ⟨z, hz⟩ := joinSep_cons ' ' w ws2
    rw [hz]
    have := hw w (List.mem_cons_self w ws2)
    cases w with
    | nil => exact absurd rfl this
    | cons a b => simp

theorem splitWs_tail_ne_nil : ∀ s : Str,
    (∀ c ∈ s.getLast?, isWs c = false) → ∀ w ∈ (splitWs s).tail, w ≠ []
  | [] => by intro _ w hw; simp [splitWs] at hw
  | [c] => by
    intro h w hw
    have hc : isWs c = false := h c (by simp)
    simp [splitWs, hc] at hw
  | c :: c2 :: cs2 => by
    intro h w hw
    have hlast : ∀ d ∈ (c2 :: cs2).getLast?, isWs d = false := by
      intro d hd
      apply h
      rw [List.getLast?_cons_cons]
      exact hd
    have ih := splitWs_tail_ne_nil (c2 :: cs2) hlast
    by_cases hc : isWs c
    · by_cases hc2 : isWs c2
      · rw [show splitWs (c :: c2 :: cs2) = splitWs (c2 :: cs2) from by
          simp [splitWs, hc, hc2]] at hw
        exact ih w hw
      · rw [show splitWs (c :: c2 :: cs2) = [] :: splitWs (c2 :: cs2) from by
          simp [splitWs, hc, hc2]] at hw
        simp only [List.tail_cons] at hw
        obtain ⟨t, ts, hts⟩ : ∃ t ts, splitWs cs2 = t :: ts := by
          cases hx : splitWs cs2 with
          | nil => exact absurd hx (splitWs_ne_nil cs2)
          | cons a b => exact ⟨a, b, rfl⟩
        have hshape : splitWs (c2 :: cs2) = (c2 :: t) :: ts :=
          splitWs_cons_of_not_ws c2 cs2 t ts (by simpa using hc2) hts
        rw [hshape] at hw
        rcases List.mem_cons.mp hw with rfl | hmem
        · simp
        · apply ih
          rw [hshape]
          simpa using hmem
    · obtain ⟨t, ts, hts⟩ : ∃ t ts, splitWs (c2 :: cs2) = t :: ts := by
        cases hx : splitWs (c2 :: cs2) with
        | nil => exact absurd hx (splitWs_ne_nil _)
        | cons a b => exact ⟨a, b, rfl⟩
      have hshape := splitWs_cons_of_not_ws c (c2 :: cs2) t ts (by simpa using hc) hts
      rw [hshape] at hw
      simp only [List.tail_cons] at hw
      apply ih
      rw [hts]
      simpa using hw

theorem splitWs_all_ne_nil (s : Str) (hs : s ≠ [])
    (h1 : ∀ c ∈ s.head?, isWs c = false) (h2 : ∀ c ∈ s.getLast?, isWs c = false) :
    ∀ w ∈ splitWs s, w ≠ [] := by
  obtain ⟨c, cs, rfl⟩ : ∃ c cs, s = c :: cs := by
    cases s with
    | nil => exact absurd rfl hs
    | cons a b => exact ⟨a, b, rfl⟩
  have hc : isWs c = false := h1 c (by simp)
  obtain ⟨t, ts, hts⟩ : ∃ t ts, splitWs cs = t :: ts := by
    cases hx : splitWs cs with
    | nil => exact absurd hx (splitWs_ne_nil cs)
    | cons a b => exact ⟨a, b, rfl⟩
  have hshape := splitWs_cons_of_not_ws c cs t ts hc hts
  intro w hw
  rw [hshape] at hw
  rcases List.mem_cons.mp hw with rfl | hmem
  · simp
  · apply splitWs_tail_ne_nil (c :: cs) h2
    rw [hshape]
    simpa using hmem

theorem dropWhile_head_nonWs (l : Str) :
    ∀ c ∈ (l.dropWhile isWs).head?, isWs c = false := by
  induction l with
  | nil => intro c hc; simp at hc
  | cons a l2 ih =>
    intro c hc
    by_cases ha : isWs a
    · rw [List.dropWhile_cons, if_pos ha] at hc
      exact ih c hc
    · rw [List.dropWhile_cons, if_neg ha] at hc
      simp only [List.head?_cons, Option.mem_def, Option.some.injEq] at hc
      subst hc
      simpa using ha

theorem getLast?_dropWhile_nonWs (l : Str) (h : l.dropWhile isWs ≠ []) :
    (l.dropWhile isWs).getLast? = l.getLast? := by
  induction l with
  | nil => exact absurd rfl h
  | cons a l2 ih =>
    by_cases ha : isWs a
    · rw [List.dropWhile_cons, if_pos ha] at h ⊢
      have hl2 : l2 ≠ [] := by
        intro hnil
        rw [hnil] at h
        exact h rfl
      obtain ⟨b, l3, rfl⟩ : ∃ b l3, l2 = b :: l3 := by
        cases l2 with
        | nil => exact absurd rfl hl2
        | cons x y => exact ⟨x, y, rfl⟩
      rw [ih h, List.getLast?_cons_cons]
    · rw [List.dropWhile_cons, if_neg ha]

theorem trim_head_nonWs (p : Str) : ∀ c ∈ (trim p).head?, isWs c = false := by
  intro c hc
  unfold trim at hc
  rw [List.head?_reverse] at hc
  by_cases hq : ((p.dropWhile isWs).reverse.dropWhile isWs) = []
  · rw [hq] at hc
    simp at hc
  · rw [getLast?_dropWhile_nonWs _ hq, List.getLast?_reverse] at hc
    exact dropWhile_head_nonWs p c hc

theorem trim_getLast_nonWs (p : Str) : ∀ c ∈ (trim p).getLast?, isWs c = false := by
  intro c hc
  unfold trim at hc
  rw [List.getLast?_reverse] at hc
  exact dropWhile_head_nonWs (p.dropWhile isWs).reverse c hc

/-! ## Claims about the secret codec -/

theorem validatePassphrase_no_emptyWord (p : Str) :
    validatePassphrase p ≠ PassphraseCheck.emptyWordError := by
  unfold validatePassphrase
  by_cases h0 : trim p = []
  · simp [h0]
  · rw [if_neg h0]
    by_cases h5 : (splitWs (trim p)).length = 5
    · have hall : ∀ w ∈ splitWs (trim p), w ≠ [] :=
        splitWs_all_ne_nil (trim p) h0 (trim_head_nonWs p) (trim_getLast_nonWs p)
      have hq : (splitWs (trim p)).all (fun w => decide (0 < w.length)) = true := by
        rw [List.all_eq_true]
        intro w hw
        have := hall w hw
        simpa [List.length_pos] using this
      simp [h5, hq]
    · simp [h5]

/-- Claim C10: the `'Each word must have at least one character'` branch of
`validatePassphrase` is unreachable — splitting the trimmed non-empty input
on the whitespace regexp never yields a zero-length token, so the function
never returns that error. -/
theorem validatePassphrase_emptyWord_unreachable (p : Str) :
    validatePassphrase p ≠ PassphraseCheck.emptyWordError :=
  validatePassphrase_no_emptyWord p

theorem validatePassphrase_valid_iff (p : Str) :
    validatePassphrase p = PassphraseCheck.valid ↔
      (trim p ≠ [] ∧ (splitWs (trim p)).length = 5 ∧
        ∀ w ∈ splitWs (trim p), w ≠ []) := by
  constructor
  · intro hv
    by_cases h0 : trim p = []
    · simp [validatePassphrase, h0] at hv
    · refine ⟨h0, ?_, splitWs_all_ne_nil (trim p) h0 (trim_head_nonWs p)
        (trim_getLast_nonWs p)⟩
      by_cases h5 : (splitWs (trim p)).length = 5
      · exact h5
      · simp [validatePassphrase, h0, h5] at hv
  · intro hc
    obtain ⟨h0, h5, hall⟩ := hc
    have hq : (splitWs (trim p)).all (fun w => decide (0 < w.length)) = true := by
      rw [List.all_eq_true]
      intro w hw
      have := hall w hw
      simpa [List.length_pos] using this
    simp [validatePassphrase, h0, h5, hq]

/-- Claim C7 (amended): `validatePassphrase` returns `valid` exactly when the
trimmed input splits on whitespace into exactly 5 (necessarily non-empty)
tokens; an input whose trimmed form is empty is rejected with the
`'Passphrase is required'` reason (not the word-count reason); every other
input whose trimmed form splits into a word count other than 5 is rejected
with the word-count reason; the empty-word reason is never returned. -/
theorem validatePassphrase_shape (p : Str) :
    (validatePassphrase p = PassphraseCheck.valid ↔
      (trim p ≠ [] ∧ (splitWs (trim p)).length = 5 ∧ ∀ w ∈ splitWs (trim p), w ≠ [])) ∧
    (trim p = [] → validatePassphrase p = PassphraseCheck.requiredError) ∧
    (trim p ≠ [] → (splitWs (trim p)).length ≠ 5 →
      validatePassphrase p = PassphraseCheck.wordCountError (splitWs (trim p)).length) ∧
    validatePassphrase p ≠ PassphraseCheck.emptyWordError := by
  refine ⟨validatePassphrase_valid_iff p, fun h0 => ?_, fun h0 h5 => ?_,
    validatePassphrase_no_emptyWord p⟩
  · simp [validatePassphrase, h0]
  · simp [validatePassphrase, h0, h5]

/-- Claim C7, counterexample to the claim as frozen: the empty input's
trimmed form splits into 1 token (≠ 5 words), yet `validatePassphrase`
rejects it with the `required` reason, not a word-count reason. -/
theorem validatePassphrase_required_counterexample :
    validatePassphrase (str "") = PassphraseCheck.requiredError ∧
    (splitWs (trim (str ""))).length = 1 ∧
    validatePassphrase (str "") ≠ PassphraseCheck.wordCountError 1 := by
  refine ⟨by decide, by decide, by decide⟩

/-- Claim C7, witness: the amended theorem applied at the concrete input
`"a b"`, discharging its hypotheses. -/
theorem validatePassphrase_shape_witness :
    validatePassphrase (str "a b") = PassphraseCheck.wordCountError 2 := by
  have h := (validatePassphrase_shape (str "a b")).2.2.1 (by decide) (by decide)
  rw [show (splitWs (trim (str "a b"))).length = 2 from by decide] at h
  exact h

/-- Claim C2 (amended): for a passphrase in canonical form — exactly 5
non-empty words, free of whitespace and of hyphens, joined by single
spaces — `validatePassphrase` accepts it and
`networkSeedToPassphrase (passphraseToNetworkSeed p) = p`. -/
theorem passphrase_roundtrip_canonical (ws : List Str)
    (h5 : ws.length = 5)
    (hne : ∀ w ∈ ws, w ≠ [])
    (hws : ∀ w ∈ ws, ∀ c ∈ w, isWs c = false)
    (hhy : ∀ w ∈ ws, ∀ c ∈ w, c ≠ '-') :
    validatePassphrase (joinSep ' ' ws) = PassphraseCheck.valid ∧
    networkSeedToPassphrase (passphraseToNetworkSeed (joinSep ' ' ws)) =
      joinSep ' ' ws := by
  have hcomb : ∀ w ∈ ws, w ≠ [] ∧ ∀ c ∈ w, isWs c = false :=
    fun w hw => ⟨hne w hw, hws w hw⟩
  have hnel : ws ≠ [] := by
    intro h
    rw [h] at h5
    simp at h5
  have htrim : trim (joinSep ' ' ws) = joinSep ' ' ws :=
    trim_of_ends _ (joinSep_head_nonWs ws hcomb) (joinSep_getLast_nonWs ws hcomb)
  have hsplit : splitWs (trim (joinSep ' ' ws)) = ws := by
    rw [htrim]
    exact splitWs_joinSep ws hnel hcomb
  have hpne : joinSep ' ' ws ≠ [] := joinSep_ne_nil ws hnel hne
  constructor
  · have h0 : trim (joinSep ' ' ws) ≠ [] := by
      rw [htrim]
      exact hpne
    exact (validatePassphrase_valid_iff (joinSep ' ' ws)).mpr
      ⟨h0, by rw [hsplit]; exact h5, by rw [hsplit]; exact hne⟩
  · unfold passphraseToNetworkSeed networkSeedToPassphrase
    rw [hsplit]
    rw [replaceFirst_marker seedMarker (joinSep '-' ws) (by decide)]
    rw [splitChar_joinSep '-' ws hnel hhy]

/-- Claim C2, counterexample to the claim as frozen: `"a  b c d e"` (double
space) passes `validatePassphrase`, but the encode/decode round trip
collapses the whitespace run and returns `"a b c d e"`; likewise
`"a-b c d e f"` (hyphen inside a word) is accepted but decodes to
`"a b c d e f"`. -/
theorem passphrase_roundtrip_counterexample :
    (validatePassphrase (str "a  b c d e") = PassphraseCheck.valid ∧
      networkSeedToPassphrase (passphraseToNetworkSeed (str "a  b c d e")) ≠
        str "a  b c d e") ∧
    (validatePassphrase (str "a-b c d e f") = PassphraseCheck.valid ∧
      networkSeedToPassphrase (passphraseToNetworkSeed (str "a-b c d e f")) ≠
        str "a-b c d e f") := by
  refine ⟨⟨by decide, by decide⟩, by decide, by decide⟩

/-- Claim C2, witness: the amended round-trip theorem applied at the
concrete canonical passphrase `"red blue green gold pink"`. -/
theorem passphrase_roundtrip_canonical_witness :
    validatePassphrase (joinSep ' '
      [str "red", str "blue", str "green", str "gold", str "pink"]) =
      PassphraseCheck.valid ∧
    networkSeedToPassphrase (passphraseToNetworkSeed (joinSep ' '
      [str "red", str "blue", str "green", str "gold", str "pink"])) =
      joinSep ' ' [str "red", str "blue", str "green", str "gold", str "pink"] :=
  passphrase_roundtrip_canonical
    [str "red", str "blue", str "green", str "gold", str "pink"]
    (by decide) (by decide) (by decide) (by decide)

/-! ## Cell-id string codec (`src/ui/src/lib/holochain/networks.ts`)

`cellIdToString` base64-encodes the two hash components with the external
`encodeHashToBase64` of `@holochain/client`, which emits *URL-safe* base64
(the js-base64 `fromUint8Array(bytes, true)` mode: `'+' → '-'`, `'/' → '_'`,
padding stripped).  `cellIdFromString` decodes with the browser's `atob`,
which implements WHATWG forgiving-base64 over the *standard* alphabet only.
Both externals are modelled here by their documented behaviour; byte arrays
are `List Nat` with every entry below 256. -/

/-- A Holochain `CellId`: the DNA-hash bytes and the agent-key bytes. -/
abbrev CellIdM := List Nat × List Nat

/-- The standard base64 alphabet, in index order. -/
def b64Alphabet : Str :=
  str "ABCDEFGHIJKLMNOPQRSTUVWXYZabcdefghijklmnopqrstuvwxyz0123456789+/"

/-- Character for a 6-bit group. -/
def b64Char (n : Nat) : Char := b64Alphabet.getD n '?'

/-- Standard (RFC 4648) base64 of a byte list, with `'='` padding. -/
def b64EncodeStd : List Nat → Str
  | [] => []
  | [b1] => [b64Char (b1 / 4), b64Char (b1 % 4 * 16), '=', '=']
  | [b1, b2] =>
    [b64Char (b1 / 4), b64Char (b1 % 4 * 16 + b2 / 16), b64Char (b2 % 16 * 4), '=']
  | b1 :: b2 :: b3 :: rest =>
    b64Char (b1 / 4) :: b64Char (b1 % 4 * 16 + b2 / 16) ::
      b64Char (b2 % 16 * 4 + b3 / 64) :: b64Char (b3 % 64) :: b64EncodeStd rest

/-- URL-safe substitution used by js-base64's uri-safe mode. -/
def uriSafeChar (c : Char) : Char :=
  if c = '+' then '-' else if c = '/' then '_' else c

/-- Model of the external `encodeHashToBase64` (`@holochain/client`), i.e.
js-base64 `fromUint8Array(bytes, true)`: standard base64 with `'='` removed
and `'+'`, `'/'` replaced by `'-'`, `'_'`. -/
def encodeHashToBase64 (bytes : List Nat) : Str :=
  ((b64EncodeStd bytes).filter (fun c => ¬ (c = '='))).map uriSafeChar

/-- Index of a character in the standard base64 alphabet. -/
def b64IndexAux (c : Char) (i : Nat) : Str → Option Nat
  | [] => none
  | d :: ds => if d = c then some i else b64IndexAux c (i + 1) ds

/-- Index of a character in the standard base64 alphabet, `none` when the
character is not in the alphabet (uppercase/lowercase letters, digits,
`'+'`, `'/'` only — `'-'` and `'_'` are *not* accepted). -/
def stdB64Index (c : Char) : Option Nat := b64IndexAux c 0 b64Alphabet

/-- ASCII whitespace stripped by forgiving-base64. -/
def isB64Ws (c : Char) : Bool :=
  c = ' ' || c = '\t' || c = '\n' || c = '\r' || c = '\x0c'

/-- Strip at most two trailing `'='` characters. -/
def dropTrailingEq (t : Str) : Str :=
  match t.reverse with
  | '=' :: '=' :: rest => rest.reverse
  | '=' :: rest => rest.reverse
  | _ => t

/-- Decode a run of base64 characters (whitespace and padding already
removed); remainders of 2 or 3 characters yield 1 or 2 bytes. -/
def b64DecodeQuads : Str → Option (List Nat)
  | [] => some []
  | [_] => none
  | [c1, c2] =>
    match stdB64Index c1, stdB64Index c2 with
    | some i1, some i2 => some [i1 * 4 + i2 / 16]
    | _, _ => none
  | [c1, c2, c3] =>
    match stdB64Index c1, stdB64Index c2, stdB64Index c3 with
    | some i1, some i2, some i3 => some [i1 * 4 + i2 / 16, i2 % 16 * 16 + i3 / 4]
    | _, _, _ => none
  | c1 :: c2 :: c3 :: c4 :: rest =>
    match stdB64Index c1, stdB64Index c2, stdB64Index c3, stdB64Index c4,
        b64DecodeQuads rest with
    | some i1, some i2, some i3, some i4, some bs =>
      some ((i1 * 4 + i2 / 16) :: (i2 % 16 * 16 + i3 / 4) :: (i3 % 4 * 64 + i4) :: bs)
    | _, _, _, _, _ => none

/-- Model of the browser's `atob` (WHATWG forgiving-base64 decode):
strip ASCII whitespace, strip up to two trailing `'='` when the length is a
multiple of 4, fail on a remaining length of 1 mod 4, fail on any character
outside the standard alphabet, else decode.  `none` models the thrown
`InvalidCharacterError`. -/
def atob (s : Str) : Option (List Nat) :=
  let t := s.filter (fun c => ¬ (isB64Ws c = true))
  let t2 := if t.length % 4 = 0 then dropTrailingEq t else t
  if t2.length % 4 = 1 then none
  else b64DecodeQuads t2

/-- `cellIdToString` from `networks.ts`:
`` `${encodeHashToBase64(cellId[0])}:${encodeHashToBase64(cellId[1])}` ``. -/
def cellIdToString (cellId : CellIdM) : Str :=
  encodeHashToBase64 cellId.1 ++ ':' :: encodeHashToBase64 cellId.2

/-- `cellIdFromString` from `networks.ts`: split on `':'`, `atob` the first
two parts and pair the byte arrays.  `none` models a thrown decoding error
(including the destructuring of a missing second part). -/
def cellIdFromString (cellIdString : Str) : Option CellIdM :=
  match splitChar ':' cellIdString with
  | dnaHash :: agentPubKey :: _ =>
    match atob dnaHash, atob agentPubKey with
    | some dnaBytes, some agentBytes => some (dnaBytes, agentBytes)
    | _, _ => none
  | _ => none

/-- Sanity check that the `atob` model is a genuine standard-base64 decoder:
it inverts the padded standard encoding on a concrete byte string. -/
theorem atob_decodes_standard_base64 :
    atob (b64EncodeStd [0, 1, 2, 253, 254, 255, 7]) = some [0, 1, 2, 253, 254, 255, 7] := by
  decide

/-- Claim C9: the round trip fails.  `cellIdToString` emits URL-safe base64
(here `"----:----"`), and `atob` — which only accepts the standard
alphabet — throws on it, so `cellIdFromString` cannot recover the original
`CellId`, contradicting the functions' own documented contract
(`Convert a string back to a CellId`). -/
theorem cellId_roundtrip_fails :
    cellIdToString ([251, 239, 190], [251, 239, 190]) = str "----:----" ∧
    cellIdFromString (cellIdToString ([251, 239, 190], [251, 239, 190])) = none := by
  refine ⟨by decide, by decide⟩

/-! ## Per-network shares cache (`src/ui/src/lib/stores/shares.ts`,
the `createSharesStore` writable-store version)

The store's async flow is modelled as a state machine: `switchNetwork`
below is the synchronous prefix of the source's `switchNetwork` (everything
executed before any `await`), returning the fetch request it launches, and
the `...Ok`/`...Err` functions are the continuations of
`fetchAndCacheShares` / `refreshInBackground` that run when the launched
`getRecentShares()` call resolves or rejects.  The `hasClient` flag models
`client !== null`. -/

/-- A UI share item (`ShareItem` of `shares.ts`). -/
structure ShareItemM where
  id : Str
  actionHash : List Nat
  url : Str
  title : Str
  description : Option Str
  selection : Option Str
  favicon : Option Str
  thumbnail : Option Str
  sharedAt : Nat
  sharedBy : Str
  sharedByName : Option Str
  tags : List Str
deriving DecidableEq, Repr

/-- State of the shares store: the writable stores `_shares`, `_loading`,
`_error`, `_connected`, `_hasNetwork`, plus the module-level `_cache` map
and `_currentNetworkId`. -/
structure SharesState where
  shares : List ShareItemM
  loading : Bool
  error : Option Str
  connected : Bool
  hasNetwork : Bool
  cache : List (Str × List ShareItemM)
  currentNetworkId : Option Str
deriving DecidableEq, Repr

/-- Initial shares-store state (`writable` initial values). -/
def initialSharesState : SharesState :=
  { shares := [], loading := true, error := none, connected := false,
    hasNetwork := false, cache := [], currentNetworkId := none }

/-- `Map.prototype.get`. -/
def mapGet (k : Str) : List (Str × List ShareItemM) → Option (List ShareItemM)
  | [] => none
  | (k2, v2) :: rest => if k2 = k then some v2 else mapGet k rest

/-- `Map.prototype.set`: update in place, else append. -/
def mapSet (k : Str) (v : List ShareItemM) :
    List (Str × List ShareItemM) → List (Str × List ShareItemM)
  | [] => [(k, v)]
  | (k2, v2) :: rest =>
    if k2 = k then (k, v) :: rest else (k2, v2) :: mapSet k v rest

/-- Kind of an in-flight `getRecentShares()` call: launched by
`fetchAndCacheShares` (foreground) or `refreshInBackground` (background). -/
inductive FetchKind where
  | foreground : FetchKind
  | background : FetchKind
deriving DecidableEq, Repr

/-- An in-flight fetch with the network id captured at launch time. -/
structure PendingFetch where
  kind : FetchKind
  capturedId : Str
deriving DecidableEq, Repr

/-- Synchronous prefix of `switchNetwork` from `shares.ts`: record the new
current id, clear the error, surface the cached entry (launching a
background refresh) or clear the view and set loading (launching a
foreground fetch). -/
def switchNetwork (hasClient : Bool) (cellIdString : Str) (s : SharesState) :
    SharesState × Option PendingFetch :=
  if hasClient = false then (s, none)
  else
    let s1 := { s with currentNetworkId := some cellIdString,
                       hasNetwork := true, error := none }
    match mapGet cellIdString s1.cache with
    | some cachedShares =>
      ({ s1 with shares := cachedShares },
        some ⟨FetchKind.background, cellIdString⟩)
    | none =>
      ({ s1 with loading := true, shares := [] },
        some ⟨FetchKind.foreground, cellIdString⟩)

/-- Continuation of `fetchAndCacheShares` when `getRecentShares()` resolves:
apply to the live view only if still on the same network; always update the
cache. -/
def fetchAndCacheSharesOk (cellIdString : Str) (fetched : List ShareItemM)
    (s : SharesState) : SharesState :=
  let s1 :=
    if s.currentNetworkId = some cellIdString then
      { s with shares := fetched, loading := false }
    else s
  { s1 with cache := mapSet cellIdString fetched s1.cache }

/-- Continuation of `fetchAndCacheShares` when `getRecentShares()` rejects:
set the error only if still on the same network; the cache is untouched. -/
def fetchAndCacheSharesErr (cellIdString : Str) (e : Str) (s : SharesState) :
    SharesState :=
  if s.currentNetworkId = some cellIdString then
    { s with error := some e, loading := false }
  else s

/-- Continuation of `refreshInBackground` when `getRecentShares()` resolves:
like the foreground case but without touching the loading flag. -/
def refreshInBackgroundOk (cellIdString : Str) (fetched : List ShareItemM)
    (s : SharesState) : SharesState :=
  let s1 :=
    if s.currentNetworkId = some cellIdString then { s with shares := fetched }
    else s
  { s1 with cache := mapSet cellIdString fetched s1.cache }

/-- Continuation of `refreshInBackground` when `getRecentShares()` rejects:
the failure is swallowed (only logged) — the state is unchanged. -/
def refreshInBackgroundErr (_cellIdString : Str) (_e : Str) (s : SharesState) :
    SharesState := s

/-- Dispatch a successful fetch resolution to the right continuation. -/
def resolveFetchOk (f : PendingFetch) (fetched : List ShareItemM)
    (s : SharesState) : SharesState :=
  match f.kind with
  | .foreground => fetchAndCacheSharesOk f.capturedId fetched s
  | .background => refreshInBackgroundOk f.capturedId fetched s

/-- Dispatch a failed fetch resolution to the right continuation. -/
def resolveFetchErr (f : PendingFetch) (e : Str) (s : SharesState) :
    SharesState :=
  match f.kind with
  | .foreground => fetchAndCacheSharesErr f.capturedId e s
  | .background => refreshInBackgroundErr f.capturedId e s

theorem mapGet_mapSet_self (k : Str) (v : List ShareItemM)
    (m : List (Str × List ShareItemM)) : mapGet k (mapSet k v m) = some v := by
  induction m with
  | nil => simp [mapSet, mapGet]
  | cons kv rest ih =>
    obtain ⟨k2, v2⟩ := kv
    by_cases h : k2 = k
    · simp [mapSet, mapGet, h]
    · simp [mapSet, mapGet, h, ih]

theorem resolveFetchOk_currentNetworkId (f : PendingFetch)
    (fetched : List ShareItemM) (s : SharesState) :
    (resolveFetchOk f fetched s).currentNetworkId = s.currentNetworkId := by
  cases f with
  | mk kind capturedId =>
    cases kind <;>
      · simp only [resolveFetchOk, fetchAndCacheSharesOk, refreshInBackgroundOk]
        split <;> rfl

theorem switchNetwork_launch (hasClient : Bool) (k : Str) (s : SharesState)
    (f : PendingFetch) (h : (switchNetwork hasClient k s).2 = some f) :
    f.capturedId = k ∧ hasClient = true ∧
    (switchNetwork hasClient k s).1.currentNetworkId = some k := by
  cases hasClient with
  | false => simp [switchNetwork] at h
  | true =>
    simp only [switchNetwork, Bool.true_eq_false, if_false] at h ⊢
    cases hm : mapGet k s.cache <;> simp only [hm] at h ⊢ <;>
      · simp only [Option.some.injEq] at h
        subst h
        exact ⟨rfl, by trivial, by trivial⟩

/-- Sample share item used as concrete data in witnesses. -/
def sampleShare : ShareItemM :=
  { id := str "s1", actionHash := [1, 2], url := str "https://example.org",
    title := str "t", description := none, selection := none, favicon := none,
    thumbnail := none, sharedAt := 7, sharedBy := str "agent",
    sharedByName := none, tags := [] }

/-- Claim C1: every fetch resolution is a guarded apply — the result reaches
the live view iff the displayed network id still equals the id captured at
launch, and is always written to the cache under the captured id; hence
after `switchNetwork A` immediately followed by `switchNetwork B` (with
`A ≠ B`), whichever order the two fetches resolve in, the live view holds
the data fetched for `B`. -/
theorem fetch_race_rule :
    (∀ (f : PendingFetch) (fetched : List ShareItemM) (s : SharesState),
      s.currentNetworkId = some f.capturedId →
        (resolveFetchOk f fetched s).shares = fetched) ∧
    (∀ (f : PendingFetch) (fetched : List ShareItemM) (s : SharesState),
      s.currentNetworkId ≠ some f.capturedId →
        (resolveFetchOk f fetched s).shares = s.shares ∧
        mapGet f.capturedId (resolveFetchOk f fetched s).cache = some fetched) ∧
    (∀ (hasClient : Bool) (A B : Str) (rA rB : List ShareItemM)
      (s0 : SharesState) (f1 f2 : PendingFetch),
      A ≠ B →
      (switchNetwork hasClient A s0).2 = some f1 →
      (switchNetwork hasClient B (switchNetwork hasClient A s0).1).2 = some f2 →
      (resolveFetchOk f2 rB (resolveFetchOk f1 rA
        (switchNetwork hasClient B (switchNetwork hasClient A s0).1).1)).shares = rB ∧
      (resolveFetchOk f1 rA (resolveFetchOk f2 rB
        (switchNetwork hasClient B (switchNetwork hasClient A s0).1).1)).shares = rB) := by
  have happly : ∀ (f : PendingFetch) (fetched : List ShareItemM) (s : SharesState),
      s.currentNetworkId = some f.capturedId →
        (resolveFetchOk f fetched s).shares = fetched := by
    intro f fetched s h
    cases f with
    | mk kind capturedId =>
      cases kind <;>
        simp [resolveFetchOk, fetchAndCacheSharesOk, refreshInBackgroundOk, h]
  have hskip : ∀ (f : PendingFetch) (fetched : List ShareItemM) (s : SharesState),
      s.currentNetworkId ≠ some f.capturedId →
        (resolveFetchOk f fetched s).shares = s.shares ∧
        mapGet f.capturedId (resolveFetchOk f fetched s).cache = some fetched := by
    intro f fetched s h
    cases f with
    | mk kind capturedId =>
      cases kind <;>
        simp [resolveFetchOk, fetchAndCacheSharesOk, refreshInBackgroundOk, h,
          mapGet_mapSet_self]
  refine ⟨happly, hskip, ?_⟩
  intro hasClient A B rA rB s0 f1 f2 hAB h1 h2
  obtain ⟨hf1, hc, _⟩ := switchNetwork_launch hasClient A s0 f1 h1
  obtain ⟨hf2, _, hcur⟩ :=
    switchNetwork_launch hasClient B (switchNetwork hasClient A s0).1 f2 h2
  set s2 := (switchNetwork hasClient B (switchNetwork hasClient A s0).1).1 with hs2
  have hne1 : s2.currentNetworkId ≠ some f1.capturedId := by
    rw [hcur, hf1]
    intro hcontra
    exact hAB (Option.some.inj hcontra).symm
  constructor
  · have h3 := (hskip f1 rA s2 hne1).1
    have hcur3 : (resolveFetchOk f1 rA s2).currentNetworkId = some f2.capturedId := by
      rw [resolveFetchOk_currentNetworkId, hcur, hf2]
    exact happly f2 rB (resolveFetchOk f1 rA s2) hcur3
  · have h4 : (resolveFetchOk f2 rB s2).shares = rB :=
      happly f2 rB s2 (by rw [hcur, hf2])
    have hne4 : (resolveFetchOk f2 rB s2).currentNetworkId ≠ some f1.capturedId := by
      rw [resolveFetchOk_currentNetworkId]
      exact hne1
    rw [(hskip f1 rA (resolveFetchOk f2 rB s2) hne4).1, h4]

/-- Claim C1, witness: the race-rule theorem applied to the concrete
double-switch `a` then `b` from the initial state, with the `a`-fetch
resolving after the `b`-fetch. -/
theorem fetch_race_rule_witness :
    (resolveFetchOk ⟨FetchKind.foreground, str "b"⟩ [sampleShare]
      (resolveFetchOk ⟨FetchKind.foreground, str "a"⟩ []
        (switchNetwork true (str "b")
          (switchNetwork true (str "a") initialSharesState).1).1)).shares =
        [sampleShare] ∧
    (resolveFetchOk ⟨FetchKind.foreground, str "a"⟩ []
      (resolveFetchOk ⟨FetchKind.foreground, str "b"⟩ [sampleShare]
        (switchNetwork true (str "b")
          (switchNetwork true (str "a") initialSharesState).1).1)).shares =
        [sampleShare] :=
  fetch_race_rule.2.2 true (str "a") (str "b") [] [sampleShare]
    initialSharesState ⟨FetchKind.foreground, str "a"⟩
    ⟨FetchKind.foreground, str "b"⟩ (by decide) (by decide) (by decide)

/-- Claim C3: `switchNetwork k` with a cache entry for `k` surfaces the
cached shares in its synchronous part, leaves the loading flag untouched,
clears the error, launches a background refresh, and a failure of that
background refresh leaves the state completely unchanged (error stays
`none`, the view keeps the cached entry). -/
theorem switchNetwork_cached (hasClient : Bool) (k : Str) (s : SharesState)
    (v : List ShareItemM) (hc : hasClient = true)
    (hv : mapGet k s.cache = some v) :
    (switchNetwork hasClient k s).1.shares = v ∧
    (switchNetwork hasClient k s).1.loading = s.loading ∧
    (switchNetwork hasClient k s).1.error = none ∧
    (switchNetwork hasClient k s).2 = some ⟨FetchKind.background, k⟩ ∧
    (∀ e, resolveFetchErr ⟨FetchKind.background, k⟩ e
      (switchNetwork hasClient k s).1 = (switchNetwork hasClient k s).1) ∧
    (∀ e, (resolveFetchErr ⟨FetchKind.background, k⟩ e
      (switchNetwork hasClient k s).1).error = none) ∧
    (∀ e, (resolveFetchErr ⟨FetchKind.background, k⟩ e
      (switchNetwork hasClient k s).1).shares = v) := by
  subst hc
  have hid : ∀ e t, resolveFetchErr ⟨FetchKind.background, k⟩ e t = t := by
    intro e t
    rfl
  simp [switchNetwork, hv, hid]

/-- Claim C3, witness: the cached-switch theorem applied to a concrete state
whose cache holds an entry for `"n"`. -/
theorem switchNetwork_cached_witness :
    (switchNetwork true (str "n")
      { initialSharesState with
          cache := [(str "n", [sampleShare])] }).1.shares = [sampleShare] ∧
    (resolveFetchErr ⟨FetchKind.background, str "n"⟩ (str "boom")
      (switchNetwork true (str "n")
        { initialSharesState with
            cache := [(str "n", [sampleShare])] }).1).error = none := by
  refine ⟨(switchNetwork_cached true (str "n") _ [sampleShare] rfl (by decide)).1, ?_⟩
  exact (switchNetwork_cached true (str "n") _ [sampleShare] rfl (by decide)).2.2.2.2.2.1
    (str "boom")

/-! ## Partition registry and networks store
(`src/ui/src/lib/holochain/networks.ts`, `src/ui/src/lib/stores/networks.ts`)

`localStorage` is modelled by two explicit fields (the last-active key and
the networks-list key).  `Date.now()` is an explicit `now` parameter.  The
remote authority's answers (clone success/failure, the reported cell list)
are explicit parameters of each operation.  The multi-network
`ShareFeedClient` methods `setCellId`/`hasCellId` are called by the stores
but absent from the included `client.ts`; the client's target is
Modelled from the spec: `retarget(partitionId)`, with domain calls scoped
to whichever partition was last retargeted — the `clientCell` field below
holds that target. -/

/-- JS string truthiness: `''` is falsy. -/
def truthy (s : Str) : Bool := !s.isEmpty

/-- JS truthiness of a `string | null` value. -/
def truthyOpt : Option Str → Bool
  | some s => !s.isEmpty
  | none => false

/-- A UI `Network` record (`$lib/types/network`). -/
structure NetworkM where
  cellId : CellIdM
  cellIdString : Str
  name : Str
  passphrase : Str
  joinedAt : Nat
  isActive : Bool
deriving DecidableEq, Repr

/-- A `NetworkLocalData` record persisted in `localStorage`. -/
structure LocalRecord where
  cellIdString : Str
  name : Str
  passphrase : Str
  joinedAt : Nat
deriving DecidableEq, Repr

/-- A `ClonedCell` as reported by the authority: its cell id, its
conductor-side name, and the optionally exposed
`dna_modifiers.network_seed`. -/
structure ClonedCellM where
  cell_id : CellIdM
  name : Str
  network_seed : Option Str
deriving DecidableEq, Repr

/-- One entry of `appInfo.cell_info[ROLE_NAME]`: provisioned or cloned. -/
inductive CellInfoM where
  | provisioned : CellInfoM
  | cloned (c : ClonedCellM) : CellInfoM
deriving DecidableEq, Repr

/-- The loop body of `getNetworks`: left-join one cloned cell against the
local records (JS `||` fallbacks included: an empty local passphrase falls
through to seed recovery, an empty seed is falsy, an empty local name falls
back to the cell name and then to `'Unnamed Network'`, a zero `joinedAt`
falls back to `Date.now()`). -/
def joinCell (localData : List LocalRecord) (now : Nat) (c : ClonedCellM) :
    NetworkM :=
  let cellIdString := cellIdToString c.cell_id
  let localRec := localData.find? (fun n => n.cellIdString == cellIdString)
  let p0 := match localRec with
    | some l => l.passphrase
    | none => []
  let passphrase :=
    if p0.isEmpty then
      match c.network_seed with
      | some s => if s.isEmpty then p0 else networkSeedToPassphrase s
      | none => p0
    else p0
  let name := match localRec with
    | some l =>
      if truthy l.name then l.name
      else if truthy c.name then c.name else str "Unnamed Network"
    | none => if truthy c.name then c.name else str "Unnamed Network"
  let joinedAt := match localRec with
    | some l => if l.joinedAt ≠ 0 then l.joinedAt else now
    | none => now
  { cellId := c.cell_id, cellIdString := cellIdString, name := name,
    passphrase := passphrase, joinedAt := joinedAt, isActive := false }

/-- The cloned cells of an authority-reported cell list, in reported
order. -/
def clonedCells : List CellInfoM → List ClonedCellM
  | [] => []
  | CellInfoM.provisioned :: rest => clonedCells rest
  | CellInfoM.cloned c :: rest => c :: clonedCells rest

/-- `getNetworks` from `networks.ts`: walk the authority's cell list in
order, keep the cloned cells, left-join each against local storage. -/
def getNetworks (cells : List CellInfoM) (localData : List LocalRecord)
    (now : Nat) : List NetworkM :=
  match cells with
  | [] => []
  | CellInfoM.provisioned :: rest => getNetworks rest localData now
  | CellInfoM.cloned c :: rest =>
    joinCell localData now c :: getNetworks rest localData now

/-- `saveNetworkLocally`: replace the record with the same id, else push. -/
def saveNetworkLocally (n : NetworkM) : List LocalRecord → List LocalRecord
  | [] => [{ cellIdString := n.cellIdString, name := n.name,
             passphrase := n.passphrase, joinedAt := n.joinedAt }]
  | r :: rest =>
    if r.cellIdString == n.cellIdString then
      { cellIdString := n.cellIdString, name := n.name,
        passphrase := n.passphrase, joinedAt := n.joinedAt } :: rest
    else r :: saveNetworkLocally n rest

/-- `removeNetworkLocally`: filter the record out. -/
def removeNetworkLocally (cellIdString : Str) (rs : List LocalRecord) :
    List LocalRecord :=
  rs.filter (fun r => !(r.cellIdString == cellIdString))

/-- `updateNetworkName`: rename the first record with the given id. -/
def updateNetworkNameLocally (cellIdString nm : Str) :
    List LocalRecord → List LocalRecord
  | [] => []
  | r :: rest =>
    if r.cellIdString == cellIdString then { r with name := nm } :: rest
    else r :: updateNetworkNameLocally cellIdString nm rest

/-- Combined session state: the networks store's writable state, the two
`localStorage` keys, the data-access client's target cell
(spec-modelled `retarget`), whether a client is connected, and the shares
store. -/
structure AppState where
  networks : List NetworkM
  activeNetworkId : Option Str
  loading : Bool
  error : Option Str
  storedActiveId : Option Str
  storedNetworks : List LocalRecord
  clientCell : Option CellIdM
  hasClient : Bool
  shares : SharesState
deriving DecidableEq, Repr

/-- The state at process start: empty store state, whatever survives in
`localStorage`, no client target. -/
def initialAppState (storedActiveId : Option Str)
    (storedNetworks : List LocalRecord) (hasClient : Bool) : AppState :=
  { networks := [], activeNetworkId := none, loading := false, error := none,
    storedActiveId := storedActiveId, storedNetworks := storedNetworks,
    clientCell := none, hasClient := hasClient, shares := initialSharesState }

/-- The `isActive` remap applied by the store whenever the active id
changes: `isActive := n.cellIdString === activeish` (false against
`null`). -/
def remapActive (a : Option Str) (l : List NetworkM) : List NetworkM :=
  l.map (fun n => { n with isActive := some n.cellIdString == a })

/-- `setActiveNetwork` from `stores/networks.ts`: look up the network;
retarget the client, persist the id, update `activeNetworkId` and the
`isActive` flags, then hand over to the share cache's `switchNetwork`
(whose launched fetch is returned). -/
def setActiveNetwork (k : Str) (app : AppState) :
    AppState × Option PendingFetch :=
  match app.networks.find? (fun n => n.cellIdString == k) with
  | none => (app, none)
  | some network =>
    let app1 :=
      if app.hasClient then { app with clientCell := some network.cellId }
      else app
    let app2 := { app1 with storedActiveId := some k }
    let app3 := { app2 with
      activeNetworkId := some k,
      networks := remapActive (some k) app2.networks }
    let sw := switchNetwork app3.hasClient k app3.shares
    ({ app3 with shares := sw.1 }, sw.2)

/-- `leaveNetwork` from `stores/networks.ts` (with `disableNetwork` from
`holochain/networks.ts` inlined).  `remoteOk` is the outcome of the remote
`disableCloneCell` call; on failure only the error is set.  On success the
local record is removed and, when the disabled network was active, the
store falls over to the first remaining network (or to none), updating the
persisted id (`newActiveId || ''`) and the client target
(`newActive?.cellId || null`). -/
def leaveNetwork (remoteOk : Bool) (e : Str) (k : Str) (app : AppState) :
    AppState :=
  if app.hasClient = false then app
  else
    match app.networks.find? (fun n => n.cellIdString == k) with
    | none => app
    | some _network =>
      if remoteOk = false then { app with error := some e }
      else
        let app1 := { app with
          storedNetworks := removeNetworkLocally k app.storedNetworks }
        let remaining := app1.networks.filter (fun n => !(n.cellIdString == k))
        if app1.activeNetworkId = some k then
          let newActiveId : Option Str :=
            match remaining.head? with
            | some n2 =>
              if n2.cellIdString.isEmpty then none else some n2.cellIdString
            | none => none
          let app2 := { app1 with
            storedActiveId := some (newActiveId.getD []) }
          let newClient : Option CellIdM :=
            match newActiveId with
            | some id =>
              (remaining.find? (fun n => n.cellIdString == id)).map
                (fun n => n.cellId)
            | none => none
          let app3 := { app2 with clientCell := newClient }
          { app3 with
            networks := remapActive newActiveId remaining,
            activeNetworkId := newActiveId }
        else
          { app1 with
            networks := remapActive app1.activeNetworkId remaining,
            activeNetworkId := app1.activeNetworkId }

/-- The active-id restoration logic of `init` in `stores/networks.ts`:
discard the stored id when it is truthy but matches no fetched network;
fall back to the first fetched network when the id is falsy. -/
def restoreActiveId (fetched : List NetworkM) (stored : Option Str) :
    Option Str :=
  let a1 :=
    if truthyOpt stored ∧
        (fetched.find? (fun n => some n.cellIdString == stored)).isNone then
      none
    else stored
  match fetched with
  | [] => a1
  | n0 :: _ => if truthyOpt a1 then a1 else some n0.cellIdString

/-- `init` from `stores/networks.ts`: set loading; on failure (including no
app client) record the error; on success take the fetched networks, restore
the stored active id, remap `isActive`, and when an active id is selected
retarget the client and switch the share cache to it. -/
def storeInit (ok : Bool) (e : Str) (fetched : List NetworkM)
    (stored : Option Str) (app : AppState) : AppState :=
  let app0 := { app with loading := true, error := none }
  if ok = false then { app0 with loading := false, error := some e }
  else
    let a2 := restoreActiveId fetched stored
    let networksWithActive := remapActive a2 fetched
    let app1 := { app0 with
      networks := networksWithActive,
      activeNetworkId := a2,
      loading := false,
      error := none }
    match a2 with
    | some id =>
      if id.isEmpty then app1
      else
        match networksWithActive.find? (fun n => n.cellIdString == id) with
        | some activeNet =>
          let app2 :=
            if app1.hasClient then { app1 with clientCell := some activeNet.cellId }
            else app1
          { app2 with shares := (switchNetwork app2.hasClient id app2.shares).1 }
        | none => app1
    | none => app1

/-- The `Network` value built by `createNetwork`/`joinNetwork` in
`holochain/networks.ts` from the clone returned by the authority. -/
def apiNetwork (cellId : CellIdM) (name passphrase : Str) (now : Nat) :
    NetworkM :=
  { cellId := cellId, cellIdString := cellIdToString cellId, name := name,
    passphrase := passphrase, joinedAt := now, isActive := false }

/-- `createNetwork` from `stores/networks.ts` (success parametrised by the
authority's returned cell id): persist the record locally, append the new
network, then auto-switch to it.  `joinNetwork` has the identical shape with
the caller-supplied passphrase and default name, so it is modelled by the
same function. -/
def storeCreateNetwork (ok : Bool) (e : Str) (cellId : CellIdM)
    (name passphrase : Str) (now : Nat) (app : AppState) : AppState :=
  if app.hasClient = false then
    { app with error := some (str "Not connected to Holochain") }
  else
    let app0 := { app with loading := true, error := none }
    if ok = false then { app0 with loading := false, error := some e }
    else
      let network := apiNetwork cellId name passphrase now
      let app1 := { app0 with
        storedNetworks := saveNetworkLocally network app0.storedNetworks }
      let app2 := { app1 with
        networks := app1.networks ++ [network],
        loading := false }
      (setActiveNetwork network.cellIdString app2).1

/-- `updateName` from `stores/networks.ts`: rename the local record, then
rename the matching entries of the store state (ids and `isActive`
untouched). -/
def storeUpdateName (k nm : Str) (app : AppState) : AppState :=
  { app with
    storedNetworks := updateNetworkNameLocally k nm app.storedNetworks,
    networks := app.networks.map (fun n =>
      if n.cellIdString == k then { n with name := nm } else n) }

/-- `reset` from `stores/networks.ts`: back to the initial store state
(`localStorage`, the client and the shares store are not touched). -/
def storeReset (app : AppState) : AppState :=
  { app with
    networks := [],
    activeNetworkId := none,
    loading := false,
    error := none }

theorem networkSeedToPassphrase_nil : networkSeedToPassphrase [] = [] := by
  decide

theorem switchNetwork_sets_current (k : Str) (s : SharesState) :
    (switchNetwork true k s).1.currentNetworkId = some k ∧
    (switchNetwork true k s).1.hasNetwork = true := by
  simp only [switchNetwork, Bool.true_eq_false, if_false]
  cases hm : mapGet k s.cache <;> simp [hm]

/-- Claim C4: for a known network id `k`, `setActiveNetwork k` persists `k`
as the durable last-active value, retargets the data-access client to `k`'s
cell (so that, in this sequential model, every domain call issued after it
returns addresses `k`'s partition — the client target is part of the
returned state and nothing later in the operation changes it), and triggers
the share cache's `switchNetwork k`. -/
theorem setActiveNetwork_retargets (app : AppState) (k : Str) (n : NetworkM)
    (hc : app.hasClient = true)
    (hfind : app.networks.find? (fun m => m.cellIdString == k) = some n) :
    (setActiveNetwork k app).1.clientCell = some n.cellId ∧
    (setActiveNetwork k app).1.storedActiveId = some k ∧
    (setActiveNetwork k app).1.activeNetworkId = some k ∧
    (setActiveNetwork k app).1.shares.currentNetworkId = some k ∧
    (setActiveNetwork k app).1.shares.hasNetwork = true := by
  simp only [setActiveNetwork, hfind, hc, if_true]
  refine ⟨by trivial, by trivial, by trivial, ?_, ?_⟩
  · exact (switchNetwork_sets_current k _).1
  · exact (switchNetwork_sets_current k _).2

/-- Sample networks used as concrete data in witnesses. -/
def sampleNetwork : NetworkM :=
  { cellId := ([1], [2]), cellIdString := str "id1", name := str "Books",
    passphrase := str "p q r s t", joinedAt := 1, isActive := false }

/-- A second sample network. -/
def sampleNetwork2 : NetworkM :=
  { cellId := ([3], [4]), cellIdString := str "id2", name := str "Other",
    passphrase := str "v w x y z", joinedAt := 2, isActive := true }

/-- Claim C4, witness: `setActiveNetwork` applied to a concrete session
holding one known network. -/
theorem setActiveNetwork_retargets_witness :
    (setActiveNetwork (str "id1")
      { initialAppState none [] true with
          networks := [sampleNetwork] }).1.clientCell = some ([1], [2]) ∧
    (setActiveNetwork (str "id1")
      { initialAppState none [] true with
          networks := [sampleNetwork] }).1.storedActiveId = some (str "id1") ∧
    (setActiveNetwork (str "id1")
      { initialAppState none [] true with
          networks :=
            [sampleNetwork] }).1.shares.currentNetworkId = some (str "id1") := by
  have h := setActiveNetwork_retargets
    { initialAppState none [] true with networks := [sampleNetwork] }
    (str "id1") sampleNetwork rfl (by decide)
  exact ⟨h.1, h.2.1, h.2.2.2.1⟩

/-- Claim C5: `leaveNetwork` on the currently active id with a successful
remote disable makes the first remaining network active (or none when no
network remains), stores the matching durable last-active value (`''` for
the cleared case, which `init` treats as absent), and removes the departed
network's local persisted record. -/
theorem leaveNetwork_disables_active (app : AppState) (k : Str)
    (n : NetworkM) (e : Str)
    (hc : app.hasClient = true)
    (hactive : app.activeNetworkId = some k)
    (hfind : app.networks.find? (fun m => m.cellIdString == k) = some n)
    (hids : ∀ m ∈ app.networks, m.cellIdString ≠ []) :
    (∀ m, (app.networks.filter (fun m2 => !(m2.cellIdString == k))).head? =
        some m →
      (leaveNetwork true e k app).activeNetworkId = some m.cellIdString ∧
      (leaveNetwork true e k app).storedActiveId = some m.cellIdString) ∧
    ((app.networks.filter (fun m2 => !(m2.cellIdString == k))).head? = none →
      (leaveNetwork true e k app).activeNetworkId = none ∧
      (leaveNetwork true e k app).storedActiveId = some []) ∧
    (leaveNetwork true e k app).storedNetworks.find?
      (fun r => r.cellIdString == k) = none := by
  have hstored : (leaveNetwork true e k app).storedNetworks =
      removeNetworkLocally k app.storedNetworks := by
    simp only [leaveNetwork, hc, hfind, hactive]
    cases hm : (app.networks.filter (fun m2 => !(m2.cellIdString == k))).head? <;>
      simp [hm]
  refine ⟨?_, ?_, ?_⟩
  · intro m hm
    have hmem : m ∈ app.networks := by
      have h1 : m ∈ app.networks.filter (fun m2 => !(m2.cellIdString == k)) := by
        have := List.mem_of_mem_head? (hm ▸ rfl : m ∈ (app.networks.filter
          (fun m2 => !(m2.cellIdString == k))).head?)
        exact this
      exact List.mem_of_mem_filter h1
    have hne : m.cellIdString.isEmpty = false := by
      have := hids m hmem
      simpa [List.isEmpty_iff] using this
    simp only [leaveNetwork, hc, hfind, hactive]
    simp [hm, hne]
  · intro hm
    simp only [leaveNetwork, hc, hfind, hactive]
    simp [hm]
  · rw [hstored, List.find?_eq_none]
    intro r hr
    have := (List.mem_filter.mp hr).2
    simpa using this

/-- Claim C5, witness: leaving the active network `"id2"` of a concrete
two-network session falls over to `"id1"` and drops `"id2"`'s local
record. -/
theorem leaveNetwork_disables_active_witness :
    (leaveNetwork true (str "boom") (str "id2")
      { initialAppState (some (str "id2"))
          [{ cellIdString := str "id2", name := str "Other",
             passphrase := str "w", joinedAt := 2 },
           { cellIdString := str "id1", name := str "Books",
             passphrase := str "v", joinedAt := 1 }] true with
          networks := [sampleNetwork2, sampleNetwork],
          activeNetworkId := some (str "id2") }).activeNetworkId =
        some (str "id1") ∧
    (leaveNetwork true (str "boom") (str "id2")
      { initialAppState (some (str "id2"))
          [{ cellIdString := str "id2", name := str "Other",
             passphrase := str "w", joinedAt := 2 },
           { cellIdString := str "id1", name := str "Books",
             passphrase := str "v", joinedAt := 1 }] true with
          networks := [sampleNetwork2, sampleNetwork],
          activeNetworkId := some (str "id2") }).storedNetworks.find?
        (fun r => r.cellIdString == str "id2") = none := by
  have h := leaveNetwork_disables_active
    { initialAppState (some (str "id2"))
        [{ cellIdString := str "id2", name := str "Other",
           passphrase := str "w", joinedAt := 2 },
         { cellIdString := str "id1", name := str "Books",
           passphrase := str "v", joinedAt := 1 }] true with
        networks := [sampleNetwork2, sampleNetwork],
        activeNetworkId := some (str "id2") }
    (str "id2") sampleNetwork2 (str "boom") rfl rfl (by decide) (by decide)
  refine ⟨?_, h.2.2⟩
  have h1 := (h.1 sampleNetwork (by decide)).1
  exact h1

/-- Claim C6: `getNetworks` returns exactly the authority's cloned cells,
in the authority's reported order, each left-joined by id against the local
records (`getNetworks = map (joinCell localData now) ∘ clonedCells`); when
no local record matches — or the matching record has no passphrase — the
passphrase is recovered by decoding the exposed network seed (empty when no
seed is exposed); every returned entry is backed by a remote cloned cell,
so local-only records never appear. -/
theorem getNetworks_left_join (cells : List CellInfoM)
    (localData : List LocalRecord) (now : Nat) :
    getNetworks cells localData now =
      (clonedCells cells).map (joinCell localData now) ∧
    (getNetworks cells localData now).map (fun n => n.cellIdString) =
      (clonedCells cells).map (fun c => cellIdToString c.cell_id) ∧
    (∀ c, localData.find?
        (fun r => r.cellIdString == cellIdToString c.cell_id) = none →
      (joinCell localData now c).passphrase =
        c.network_seed.elim [] networkSeedToPassphrase) ∧
    (∀ c l, localData.find?
        (fun r => r.cellIdString == cellIdToString c.cell_id) = some l →
      l.passphrase = [] →
      (joinCell localData now c).passphrase =
        c.network_seed.elim [] networkSeedToPassphrase) ∧
    (∀ n ∈ getNetworks cells localData now,
      n.cellIdString ∈
        (clonedCells cells).map (fun c => cellIdToString c.cell_id)) := by
  have h1 : ∀ cs : List CellInfoM, getNetworks cs localData now =
      (clonedCells cs).map (joinCell localData now) := by
    intro cs
    induction cs with
    | nil => rfl
    | cons c rest ih => cases c <;> simp [getNetworks, clonedCells, ih]
  have h2 : (getNetworks cells localData now).map (fun n => n.cellIdString) =
      (clonedCells cells).map (fun c => cellIdToString c.cell_id) := by
    rw [h1, List.map_map]
    rfl
  refine ⟨h1 cells, h2, ?_, ?_, ?_⟩
  · intro c hnone
    cases hs : c.network_seed with
    | none => simp [joinCell, hnone, hs]
    | some s =>
      by_cases hse : s.isEmpty
      · have : s = [] := by simpa [List.isEmpty_iff] using hse
        subst this
        simp [joinCell, hnone, hs, networkSeedToPassphrase_nil]
      · simp [joinCell, hnone, hs, hse]
  · intro c l hfound hlp
    cases hs : c.network_seed with
    | none => simp [joinCell, hfound, hlp, hs]
    | some s =>
      by_cases hse : s.isEmpty
      · have : s = [] := by simpa [List.isEmpty_iff] using hse
        subst this
        simp [joinCell, hfound, hlp, hs, networkSeedToPassphrase_nil]
      · simp [joinCell, hfound, hlp, hs, hse]
  · intro n hn
    rw [← h2]
    exact List.mem_map_of_mem (fun n => n.cellIdString) hn

/-- Sample authority-reported cloned cell used in the C6 witness. -/
def sampleCell : ClonedCellM :=
  { cell_id := ([5], [6]), name := str "cellname",
    network_seed := some (str "sharefeed-a-b-c-d-e") }

/-- Claim C6, witness: `getNetworks` applied to a concrete authority list
with one cloned and one provisioned cell and no local records. -/
theorem getNetworks_left_join_witness :
    (getNetworks [CellInfoM.cloned sampleCell, CellInfoM.provisioned] [] 0).map
      (fun n => n.cellIdString) = [cellIdToString ([5], [6])] ∧
    (joinCell [] 0 sampleCell).passphrase = str "a b c d e" := by
  have h := getNetworks_left_join
    [CellInfoM.cloned sampleCell, CellInfoM.provisioned] [] 0
  constructor
  · rw [h.2.1]
    rfl
  · exact (h.2.2.1 sampleCell rfl).trans (by decide)

/-! ## Claim C8: the single-active-network invariant -/

/-- The ids of a network list, in order. -/
def networkIds (l : List NetworkM) : List Str :=
  l.map (fun n => n.cellIdString)

/-- Auxiliary store invariant: `isActive` flags agree with
`activeNetworkId`, and network ids are pairwise distinct. -/
def StoreInv (app : AppState) : Prop :=
  (∀ n ∈ app.networks,
    (n.isActive = true ↔ app.activeNetworkId = some n.cellIdString)) ∧
  (networkIds app.networks).Nodup

theorem remapActive_iff (a : Option Str) (l : List NetworkM) :
    ∀ n ∈ remapActive a l,
      (n.isActive = true ↔ a = some n.cellIdString) := by
  intro n hn
  obtain ⟨m, _, rfl⟩ := List.mem_map.mp hn
  show (some m.cellIdString == a) = true ↔ a = some m.cellIdString
  rw [beq_iff_eq]
  exact eq_comm

theorem networkIds_remapActive (a : Option Str) (l : List NetworkM) :
    networkIds (remapActive a l) = networkIds l := by
  unfold networkIds remapActive
  rw [List.map_map]
  exact List.map_congr_left (fun n _ => rfl)

theorem networkIds_map_preserving (l : List NetworkM) (f : NetworkM → NetworkM)
    (hf : ∀ n, (f n).cellIdString = n.cellIdString) :
    networkIds (l.map f) = networkIds l := by
  unfold networkIds
  rw [List.map_map]
  exact List.map_congr_left (fun n _ => hf n)

theorem storeInv_remap (app2 : AppState) (a : Option Str) (l : List NetworkM)
    (hnd : (networkIds l).Nodup)
    (hnet : app2.networks = remapActive a l)
    (hact : app2.activeNetworkId = a) : StoreInv app2 := by
  constructor
  · intro n hn
    rw [hnet] at hn
    rw [hact]
    exact remapActive_iff a l n hn
  · rw [hnet, networkIds_remapActive]
    exact hnd

theorem storeInv_congr (app app2 : AppState) (hinv : StoreInv app)
    (hnet : app2.networks = app.networks)
    (hact : app2.activeNetworkId = app.activeNetworkId) : StoreInv app2 := by
  constructor
  · intro n hn
    rw [hnet] at hn
    rw [hact]
    exact hinv.1 n hn
  · rw [hnet]
    exact hinv.2

theorem countP_isActive_le_one (l : List NetworkM) (a : Option Str)
    (hnd : (networkIds l).Nodup)
    (hiff : ∀ n ∈ l, (n.isActive = true ↔ a = some n.cellIdString)) :
    l.countP (fun n => n.isActive) ≤ 1 := by
  induction l with
  | nil => simp
  | cons n l2 ih =>
    have hsplit := List.nodup_cons.mp
      (show (n.cellIdString :: networkIds l2).Nodup from hnd)
    have hnd2 : (networkIds l2).Nodup := hsplit.2
    have hnotin : n.cellIdString ∉ networkIds l2 := hsplit.1
    rw [List.countP_cons]
    by_cases hA : n.isActive = true
    · have ha : a = some n.cellIdString := (hiff n (List.mem_cons_self n l2)).mp hA
      have hzero : l2.countP (fun m => m.isActive) = 0 := by
        rw [List.countP_eq_zero]
        intro m hm hmA
        have ham : a = some m.cellIdString :=
          (hiff m (List.mem_cons_of_mem n hm)).mp hmA
        have : n.cellIdString = m.cellIdString := by
          have := ha.symm.trans ham
          exact Option.some.inj this
        exact hnotin (this ▸ List.mem_map_of_mem (fun x => x.cellIdString) hm)
      simp [hzero, hA]
    · have hAf : n.isActive = false := by simpa using hA
      have := ih hnd2 (fun m hm => hiff m (List.mem_cons_of_mem n hm))
      simpa [hAf] using this

theorem storeInit_fail_fields (e : Str) (fetched : List NetworkM)
    (stored : Option Str) (app : AppState) :
    (storeInit false e fetched stored app).networks = app.networks ∧
    (storeInit false e fetched stored app).activeNetworkId =
      app.activeNetworkId := by
  constructor <;> rfl

theorem storeInit_ok_fields (e : Str) (fetched : List NetworkM)
    (stored : Option Str) (app : AppState) :
    (storeInit true e fetched stored app).networks =
      remapActive (restoreActiveId fetched stored) fetched ∧
    (storeInit true e fetched stored app).activeNetworkId =
      restoreActiveId fetched stored := by
  simp only [storeInit, Bool.true_eq_false, if_false]
  constructor <;> (repeat' split) <;> rfl

theorem setActiveNetwork_fields (k : Str) (app : AppState) :
    (app.networks.find? (fun n => n.cellIdString == k) = none ∧
      (setActiveNetwork k app).1.networks = app.networks ∧
      (setActiveNetwork k app).1.activeNetworkId = app.activeNetworkId) ∨
    ((setActiveNetwork k app).1.networks = remapActive (some k) app.networks ∧
      (setActiveNetwork k app).1.activeNetworkId = some k) := by
  cases hf : app.networks.find? (fun n => n.cellIdString == k) with
  | none =>
    left
    refine ⟨hf ▸ rfl, ?_, ?_⟩ <;> simp [setActiveNetwork, hf]
  | some n =>
    right
    by_cases hc : app.hasClient <;>
      · constructor <;> simp [setActiveNetwork, hf, hc]

theorem leaveNetwork_fields (remoteOk : Bool) (e k : Str) (app : AppState) :
    ((leaveNetwork remoteOk e k app).networks = app.networks ∧
      (leaveNetwork remoteOk e k app).activeNetworkId = app.activeNetworkId) ∨
    (∃ a : Option Str,
      (leaveNetwork remoteOk e k app).networks =
        remapActive a (app.networks.filter (fun n => !(n.cellIdString == k))) ∧
      (leaveNetwork remoteOk e k app).activeNetworkId = a) := by
  by_cases hc : app.hasClient = false
  · left
    constructor <;> simp [leaveNetwork, hc]
  · have hc2 : app.hasClient = true := by simpa using hc
    cases hf : app.networks.find? (fun n => n.cellIdString == k) with
    | none =>
      left
      constructor <;> simp [leaveNetwork, hc2, hf]
    | some n =>
      cases remoteOk with
      | false =>
        left
        constructor <;> simp [leaveNetwork, hc2, hf]
      | true =>
        right
        by_cases ha : app.activeNetworkId = some k
        · cases hh : (app.networks.filter (fun m => !(m.cellIdString == k))).head? with
          | none =>
            refine ⟨none, ?_, ?_⟩ <;> simp [leaveNetwork, hc2, hf, ha, hh]
          | some n2 =>
            refine ⟨if n2.cellIdString.isEmpty then none else some n2.cellIdString,
              ?_, ?_⟩ <;> simp [leaveNetwork, hc2, hf, ha, hh]
        · refine ⟨app.activeNetworkId, ?_, ?_⟩ <;>
            simp [leaveNetwork, hc2, hf, ha]

theorem storeCreateNetwork_ok_eq (e : Str) (cellId : CellIdM) (nm ps : Str)
    (now : Nat) (app : AppState) (hc : app.hasClient = true) :
    storeCreateNetwork true e cellId nm ps now app =
      (setActiveNetwork (cellIdToString cellId)
        { app with
          loading := false,
          error := none,
          storedNetworks :=
            saveNetworkLocally (apiNetwork cellId nm ps now) app.storedNetworks,
          networks := app.networks ++ [apiNetwork cellId nm ps now] }).1 := by
  simp only [storeCreateNetwork, hc, Bool.true_eq_false, if_false]
  rfl

theorem storeCreateNetwork_inv (ok : Bool) (e : Str) (cellId : CellIdM)
    (nm ps : Str) (now : Nat) (app : AppState) (hinv : StoreInv app)
    (hfresh : ok = true → cellIdToString cellId ∉ networkIds app.networks) :
    StoreInv (storeCreateNetwork ok e cellId nm ps now app) := by
  by_cases hc : app.hasClient = false
  · apply storeInv_congr app _ hinv <;> simp [storeCreateNetwork, hc]
  · have hc2 : app.hasClient = true := by simpa using hc
    cases ok with
    | false => apply storeInv_congr app _ hinv <;> simp [storeCreateNetwork, hc2]
    | true =>
      rw [storeCreateNetwork_ok_eq e cellId nm ps now app hc2]
      have hnd2 : (networkIds
          (app.networks ++ [apiNetwork cellId nm ps now])).Nodup := by
        have hsplitids : networkIds (app.networks ++ [apiNetwork cellId nm ps now]) =
            networkIds app.networks ++ [cellIdToString cellId] := by
          simp [networkIds, apiNetwork]
        rw [hsplitids, List.nodup_append]
        refine ⟨hinv.2, List.nodup_singleton _, ?_⟩
        intro x hx hy
        simp only [List.mem_singleton] at hy
        subst hy
        exact (hfresh rfl) hx
      rcases setActiveNetwork_fields (cellIdToString cellId)
          { app with
            loading := false,
            error := none,
            storedNetworks :=
              saveNetworkLocally (apiNetwork cellId nm ps now) app.storedNetworks,
            networks := app.networks ++ [apiNetwork cellId nm ps now] } with
        ⟨hnone, _, _⟩ | ⟨hnet, hact⟩
      · exfalso
        have hmem : apiNetwork cellId nm ps now ∈
            app.networks ++ [apiNetwork cellId nm ps now] :=
          List.mem_append_right _ (List.mem_singleton_self _)
        have := List.find?_eq_none.mp hnone (apiNetwork cellId nm ps now) hmem
        apply this
        show ((apiNetwork cellId nm ps now).cellIdString ==
          cellIdToString cellId) = true
        exact beq_self_eq_true _
      · exact storeInv_remap _ _ _ hnd2 hnet hact

theorem storeUpdateName_inv (k nm : Str) (app : AppState)
    (hinv : StoreInv app) : StoreInv (storeUpdateName k nm app) := by
  constructor
  · intro n hn
    obtain ⟨m, hm, rfl⟩ := List.mem_map.mp hn
    have hact : ((if m.cellIdString == k then { m with name := nm } else m) :
        NetworkM).isActive = m.isActive := by
      split <;> rfl
    have hid : ((if m.cellIdString == k then { m with name := nm } else m) :
        NetworkM).cellIdString = m.cellIdString := by
      split <;> rfl
    rw [hact, hid]
    exact hinv.1 m hm
  · have hids : networkIds (storeUpdateName k nm app).networks =
        networkIds app.networks := by
      apply networkIds_map_preserving
      intro n
      split <;> rfl
    rw [hids]
    exact hinv.2

/-- One atomic operation of the networks store, with its external inputs
(remote results, fetched lists, stored values) as parameters.  The two
well-formedness hypotheses record what the remote authority guarantees:
the reported cell list has pairwise-distinct ids, and a freshly created
clone's id is not already in the session (`createCloneCell` fails on a
duplicate clone).  `joinNetwork` has the same success shape as
`createNetwork` and is covered by the same constructors. -/
inductive StoreStep : AppState → AppState → Prop where
  | initOk (app : AppState) (e : Str) (fetched : List NetworkM)
      (stored : Option Str) (hnd : (networkIds fetched).Nodup) :
      StoreStep app (storeInit true e fetched stored app)
  | initFail (app : AppState) (e : Str) (fetched : List NetworkM)
      (stored : Option Str) :
      StoreStep app (storeInit false e fetched stored app)
  | createOk (app : AppState) (e : Str) (cellId : CellIdM) (nm ps : Str)
      (now : Nat)
      (hfresh : cellIdToString cellId ∉ networkIds app.networks) :
      StoreStep app (storeCreateNetwork true e cellId nm ps now app)
  | createFail (app : AppState) (e : Str) (cellId : CellIdM) (nm ps : Str)
      (now : Nat) :
      StoreStep app (storeCreateNetwork false e cellId nm ps now app)
  | setActive (app : AppState) (k : Str) :
      StoreStep app (setActiveNetwork k app).1
  | leave (app : AppState) (remoteOk : Bool) (e k : Str) :
      StoreStep app (leaveNetwork remoteOk e k app)
  | rename (app : AppState) (k nm : Str) :
      StoreStep app (storeUpdateName k nm app)
  | reset (app : AppState) : StoreStep app (storeReset app)
  | fetchOk (app : AppState) (f : PendingFetch) (r : List ShareItemM) :
      StoreStep app { app with shares := resolveFetchOk f r app.shares }
  | fetchErr (app : AppState) (f : PendingFetch) (e : Str) :
      StoreStep app { app with shares := resolveFetchErr f e app.shares }

/-- Session states reachable from a fresh process start through the store
operations. -/
inductive ReachableApp : AppState → Prop where
  | base (storedActiveId : Option Str) (storedNetworks : List LocalRecord)
      (hasClient : Bool) :
      ReachableApp (initialAppState storedActiveId storedNetworks hasClient)
  | step {app app2 : AppState} :
      ReachableApp app → StoreStep app app2 → ReachableApp app2

theorem storeStep_inv {app app2 : AppState} (h : StoreStep app app2)
    (hinv : StoreInv app) : StoreInv app2 := by
  cases h with
  | initOk e fetched stored hnd =>
    exact storeInv_remap _ _ _ hnd (storeInit_ok_fields e fetched stored app).1
      (storeInit_ok_fields e fetched stored app).2
  | initFail e fetched stored =>
    exact storeInv_congr app _ hinv (storeInit_fail_fields e fetched stored app).1
      (storeInit_fail_fields e fetched stored app).2
  | createOk e cellId nm ps now hfresh =>
    exact storeCreateNetwork_inv true e cellId nm ps now app hinv (fun _ => hfresh)
  | createFail e cellId nm ps now =>
    exact storeCreateNetwork_inv false e cellId nm ps now app hinv (by simp)
  | setActive k =>
    rcases setActiveNetwork_fields k app with ⟨_, hnet, hact⟩ | ⟨hnet, hact⟩
    · exact storeInv_congr app _ hinv hnet hact
    · exact storeInv_remap _ _ _ hinv.2 hnet hact
  | leave remoteOk e k =>
    rcases leaveNetwork_fields remoteOk e k app with ⟨hnet, hact⟩ | ⟨a, hnet, hact⟩
    · exact storeInv_congr app _ hinv hnet hact
    · refine storeInv_remap _ _ _ ?_ hnet hact
      have hsub : (networkIds (app.networks.filter
          (fun n => !(n.cellIdString == k)))).Sublist (networkIds app.networks) :=
        List.Sublist.map _ (List.filter_sublist app.networks)
      exact List.Nodup.sublist hsub hinv.2
  | rename k nm => exact storeUpdateName_inv k nm app hinv
  | reset =>
    constructor
    · intro n hn
      simp [storeReset] at hn
    · simp [storeReset, networkIds]
  | fetchOk f r => exact storeInv_congr app _ hinv rfl rfl
  | fetchErr f e => exact storeInv_congr app _ hinv rfl rfl

/-- Claim C8: in every session state reachable from the initial state via
the store operations (`init`, `createNetwork`, `joinNetwork`,
`setActiveNetwork`, `leaveNetwork`, `updateName`, `reset`, plus share-fetch
resolutions), at most one network has `isActive = true`, and a network has
`isActive = true` iff its `cellIdString` equals `activeNetworkId`. -/
theorem networks_active_invariant (app : AppState) (h : ReachableApp app) :
    app.networks.countP (fun n => n.isActive) ≤ 1 ∧
    ∀ n ∈ app.networks,
      (n.isActive = true ↔ app.activeNetworkId = some n.cellIdString) := by
  have hinv : StoreInv app := by
    induction h with
    | base sa sn hc =>
      constructor
      · intro n hn
        simp [initialAppState] at hn
      · simp [initialAppState, networkIds]
    | step _ hs ih => exact storeStep_inv hs ih
  exact ⟨countP_isActive_le_one app.networks app.activeNetworkId hinv.2 hinv.1,
    hinv.1⟩

/-- Claim C8, witness: the invariant holds in the concrete state reached by
creating a network from a fresh session. -/
theorem networks_active_invariant_witness :
    (storeCreateNetwork true (str "") ([1], [2]) (str "Books") (str "p")
      0 (initialAppState none [] true)).networks.countP
        (fun n => n.isActive) ≤ 1 ∧
    ∀ n ∈ (storeCreateNetwork true (str "") ([1], [2]) (str "Books") (str "p")
        0 (initialAppState none [] true)).networks,
      (n.isActive = true ↔
        (storeCreateNetwork true (str "") ([1], [2]) (str "Books") (str "p")
          0 (initialAppState none [] true)).activeNetworkId =
          some n.cellIdString) :=
  networks_active_invariant _
    (ReachableApp.step (ReachableApp.base none [] true)
      (StoreStep.createOk (initialAppState none [] true) (str "") ([1], [2])
        (str "Books") (str "p") 0 (by simp [initialAppState, networkIds])))
